import Mathlib

/-
  Verification development for the `rpm.extract` Ansible module
  (src/library/rpm.extract.py).

  The function `run_module` of the module is shallowly embedded below.  The
  filesystem is modelled as a tree of named entries; machine-level pieces
  that the module treats as opaque collaborators (tilde expansion, the
  rpm2cpio | cpio pipeline, the pwd/grp identity databases, permission
  denials during chown) are supplied by an `Env` record of oracles, so
  that one run of the embedded `run_module` is a pure function of the
  request, the environment, the starting working directory and the
  starting filesystem.
-/

set_option autoImplicit false

namespace RpmExtract

/-- Ownership metadata of a filesystem entry: numeric uid and gid. -/
structure Meta where
  uid : Int
  gid : Int
deriving Repr, DecidableEq

mutual
/-- A filesystem entry: a regular file, a symbolic link (the Bool records
whether its target is a directory, which decides both what `os.path.isdir`
reports for it and how `os.walk` classifies it), or a directory with named
children. -/
inductive FsNode where
  | file : Meta → FsNode
  | symlink : Meta → Bool → FsNode
  | dir : Meta → FsTree → FsNode
deriving Repr, DecidableEq

/-- The children of a directory: an association list of names to entries. -/
inductive FsTree where
  | nil : FsTree
  | cons : String → FsNode → FsTree → FsTree
deriving Repr, DecidableEq
end

/-- An absolute path, as the list of its segments. -/
abbrev Path := List String

/-- Find the entry with the given name. -/
def FsTree.find : FsTree → String → Option FsNode
  | .nil, _ => none
  | .cons n e t, m => if n = m then some e else t.find m

/-- Replace the entry with the given name, or append it. -/
def FsTree.setEntry : FsTree → String → FsNode → FsTree
  | .nil, m, node => .cons m node .nil
  | .cons n e t, m, node =>
      if n = m then .cons n node t else .cons n e (t.setEntry m node)

/-- Remove every entry with the given name. -/
def FsTree.removeEntry : FsTree → String → FsTree
  | .nil, _ => .nil
  | .cons n e t, m =>
      if n = m then t.removeEntry m else .cons n e (t.removeEntry m)

/-- Resolve a path against a tree of directory children, descending only
through directories.  The empty path resolves to nothing. -/
def lookupPath : FsTree → Path → Option FsNode
  | _, [] => none
  | t, n :: rest =>
      match rest with
      | [] => t.find n
      | _ =>
          match t.find n with
          | some (.dir _ cs) => lookupPath cs rest
          | _ => none

/-- What `os.path.isdir` reports once a path resolves to this entry:
true for a directory, and true for a symbolic link exactly when its
target is a directory — `os.path.isdir` follows symbolic links; false
for a regular file. -/
def isdirNode : FsNode → Bool
  | .dir _ _ => true
  | .symlink _ b => b
  | .file _ => false

/-- The `os.path.isdir` test: the path resolves to an entry that `isdir`
reports as a directory — a real directory, or a symlink whose target is
one. -/
def isDir (t : FsTree) (p : Path) : Bool :=
  match lookupPath t p with
  | some e => isdirNode e
  | none => false

/-- Write `node` at path `p`, descending through existing directories;
a path whose parent chain is broken leaves the tree unchanged (callers
check the parent first, as `os.mkdir` does). -/
def setAtPath : FsTree → Path → FsNode → FsTree
  | t, [], _ => t
  | t, n :: rest, node =>
      match rest with
      | [] => t.setEntry n node
      | _ =>
          match t.find n with
          | some (.dir m cs) => t.setEntry n (.dir m (setAtPath cs rest node))
          | _ => t

/-- Remove the entry at path `p` (no-op if the parent chain is broken). -/
def removeAtPath : FsTree → Path → FsTree
  | t, [] => t
  | t, n :: rest =>
      match rest with
      | [] => t.removeEntry n
      | _ =>
          match t.find n with
          | some (.dir m cs) => t.setEntry n (.dir m (removeAtPath cs rest))
          | _ => t

/-- Model of `shutil.rmtree(dest, ignore_errors=True)`: removes the tree when the
path is a directory; on anything else the error is swallowed and nothing
happens. -/
def rmtree (t : FsTree) (p : Path) : FsTree :=
  match lookupPath t p with
  | some (.dir _ _) => removeAtPath t p
  | _ => t

/-- The precondition of `os.mkdir` on the parent: the parent of the path must
resolve to a directory, i.e. every strict prefix of the path descends
through directories (the root always qualifies). -/
def parentOk : FsTree → Path → Bool
  | _, [] => true
  | _, [_] => true
  | t, n :: rest =>
      match t.find n with
      | some (.dir _ cs) => parentOk cs rest
      | _ => false

-- ==================================================================
-- Strings and paths

/-- Split a character list on `/` (the chunks between slashes, like
`str.split("/")`). -/
def splitSlash : List Char → List (List Char)
  | [] => [[]]
  | c :: rest =>
      let r := splitSlash rest
      if c = '/' then [] :: r
      else
        match r with
        | [] => [[c]]
        | h :: t => (c :: h) :: t

/-- Model of `os.path.basename`: everything after the last `/`. -/
def basenameL (cs : List Char) : List Char :=
  (cs.reverse.takeWhile (fun c => c ≠ '/')).reverse

/-- Model of `os.path.basename` on strings. -/
def basename (s : String) : String :=
  String.mk (basenameL s.toList)

/-- The path segments of a string path (empty chunks dropped). -/
def segs (s : String) : Path :=
  ((splitSlash s.toList).filter (fun l => l ≠ [])).map (fun l => String.mk l)

/-- Does the string path start with `/` (an absolute path)? -/
def startsSlash (s : String) : Bool :=
  match s.toList with
  | '/' :: _ => true
  | _ => false

/-- Resolve a string path against a current working directory. -/
def resolve (cwd : Path) (s : String) : Path :=
  if startsSlash s then segs s else cwd ++ segs s

/-- Render a `Path` as an absolute string path (`os.getcwd` style). -/
def pathStr (p : Path) : String :=
  match p with
  | [] => "/"
  | _ => p.foldl (fun a s => a ++ "/" ++ s) ""

/-- Model of `os.path.join(a, b)` for the cases this module uses. -/
def joinStr (a b : String) : String :=
  if startsSlash b then b
  else if a = "/" then a ++ b
  else a ++ "/" ++ b

/-- Does `s` end with the given suffix (as character lists)? -/
def endsWithL (s suf : List Char) : Bool :=
  decide (List.drop (s.length - suf.length) s = suf)

/-- Line 152 of the source: `os.path.basename(src[:-len(".rpm")])` —
the destination name defaulted from the source path.  Note the slice
removes the last four characters unconditionally. -/
def default_dest (src : String) : String :=
  basename (String.mk (src.toList.take (src.toList.length - ".rpm".toList.length)))

/-- Python truthiness of an optional string: `None` and `""` are falsy. -/
def strOpt : Option String → Option String
  | some s => if s = "" then none else some s
  | none => none

-- ==================================================================
-- The ownership-normalization walk (lines 218-228 of the source)
--
-- `os.walk(result_dir)` (followlinks defaulting to False) yields each real
-- directory top-down as `dirpath`; symbolic links whose target is a
-- directory are classified into `dirnames` (which the loop ignores) and,
-- because links are not followed, are never themselves yielded as a
-- `dirpath` — so the walk neither descends into them nor chowns them.
-- All other entries appear in `filenames` and are chowned with
-- `follow_symlinks=False`.  A uid or gid of -1 means "leave unchanged"
-- (`os.chown` semantics).  A `PermissionError` anywhere aborts the walk;
-- `deny` tells which paths raise it.

/-- Model of `os.chown(path, uid, gid)`: -1 leaves the respective id unchanged. -/
def chownMeta (uid gid : Int) (m : Meta) : Meta :=
  { uid := if uid = -1 then m.uid else uid
    gid := if gid = -1 then m.gid else gid }

/-- The `for filename in filenames` loop of one `os.walk` yield: chown every
non-directory entry of the directory at `path`, in order, stopping at the
first permission denial.  Directory entries (and symlinks to directories,
which `os.walk` classifies as directories) are left to the recursive part. -/
def chownFilesPhase (deny : Path → Bool) (uid gid : Int) (path : Path) :
    FsTree → FsTree × Bool
  | .nil => (.nil, true)
  | .cons n e t =>
      match e with
      | .file m =>
          if deny (path ++ [n]) then (.cons n e t, false)
          else
            let r := chownFilesPhase deny uid gid path t
            (.cons n (.file (chownMeta uid gid m)) r.1, r.2)
      | .symlink m b =>
          if b then
            let r := chownFilesPhase deny uid gid path t
            (.cons n e r.1, r.2)
          else if deny (path ++ [n]) then (.cons n e t, false)
          else
            let r := chownFilesPhase deny uid gid path t
            (.cons n (.symlink (chownMeta uid gid m) b) r.1, r.2)
      | .dir _ _ =>
          let r := chownFilesPhase deny uid gid path t
          (.cons n e r.1, r.2)

/-- The recursive part of the walk over the real subdirectories of a
directory: the first tree is the original children of the directory (used for
the recursion structure), the second is the same children after the files
phase (carrying the already-applied chowns); each real subdirectory is
chowned, its files chowned, then its subdirectories, depth-first top-down,
stopping at the first denial. -/
def walkT (deny : Path → Bool) (uid gid : Int) (path : Path) :
    FsTree → FsTree → FsTree × Bool
  | .nil, acc => (acc, true)
  | .cons n e t, acc =>
      match acc with
      | .nil => (.nil, true)
      | .cons n' e' acc' =>
          match e with
          | .dir m cs =>
              if deny (path ++ [n]) then (.cons n' (.dir m cs) acc', false)
              else
                let m2 := chownMeta uid gid m
                let fp := chownFilesPhase deny uid gid (path ++ [n]) cs
                if fp.2 then
                  let sd := walkT deny uid gid (path ++ [n]) cs fp.1
                  if sd.2 then
                    let r := walkT deny uid gid path t acc'
                    (.cons n' (.dir m2 sd.1) r.1, r.2)
                  else (.cons n' (.dir m2 sd.1) acc', false)
                else (.cons n' (.dir m2 fp.1) acc', false)
          | _ =>
              let r := walkT deny uid gid path t acc'
              (.cons n' e' r.1, r.2)

/-- The whole `os.walk` loop rooted at the destination directory: chown the
root, its non-directory entries, then recursively every real
subdirectory.  Returns the updated directory node and whether the walk
completed without a `PermissionError`. -/
def walkRoot (deny : Path → Bool) (uid gid : Int) (path : Path) (m : Meta)
    (cs : FsTree) : FsNode × Bool :=
  if deny path then (.dir m cs, false)
  else
    let m2 := chownMeta uid gid m
    let fp := chownFilesPhase deny uid gid path cs
    if fp.2 then
      let sd := walkT deny uid gid path cs fp.1
      (.dir m2 sd.1, sd.2)
    else (.dir m2 fp.1, false)

-- ==================================================================
-- Reference maps used to state properties of the walk

/-- Apply the chown to every entry of a tree the way a completed walk
does: files, directories and symlinks-to-files get the new ids; a symlink
whose target is a directory is skipped (and has no descended contents). -/
def chownAllTree (uid gid : Int) : FsTree → FsTree
  | .nil => .nil
  | .cons n e t =>
      let e' :=
        match e with
        | .file m => FsNode.file (chownMeta uid gid m)
        | .symlink m b =>
            if b then FsNode.symlink m b else FsNode.symlink (chownMeta uid gid m) b
        | .dir m cs => FsNode.dir (chownMeta uid gid m) (chownAllTree uid gid cs)
      .cons n e' (chownAllTree uid gid t)

/-- Node-level version of `chownAllTree`. -/
def chownAll (uid gid : Int) : FsNode → FsNode
  | .file m => .file (chownMeta uid gid m)
  | .symlink m b =>
      if b then .symlink m b else .symlink (chownMeta uid gid m) b
  | .dir m cs => .dir (chownMeta uid gid m) (chownAllTree uid gid cs)

/-- What the files phase alone does when nothing is denied. -/
def chownFilesAll (uid gid : Int) : FsTree → FsTree
  | .nil => .nil
  | .cons n e t =>
      let e' :=
        match e with
        | .file m => FsNode.file (chownMeta uid gid m)
        | .symlink m b =>
            if b then FsNode.symlink m b else FsNode.symlink (chownMeta uid gid m) b
        | .dir m cs => FsNode.dir m cs
      .cons n e' (chownFilesAll uid gid t)

/-- Map a function over the metadata of every entry of a tree. -/
def mapMetaTree (f : Meta → Meta) : FsTree → FsTree
  | .nil => .nil
  | .cons n e t =>
      let e' :=
        match e with
        | .file m => FsNode.file (f m)
        | .symlink m b => FsNode.symlink (f m) b
        | .dir m cs => FsNode.dir (f m) (mapMetaTree f cs)
      .cons n e' (mapMetaTree f t)

/-- Node-level version of `mapMetaTree`. -/
def mapMetaNode (f : Meta → Meta) : FsNode → FsNode
  | .file m => .file (f m)
  | .symlink m b => .symlink (f m) b
  | .dir m cs => .dir (f m) (mapMetaTree f cs)

/-- The entry of a node reached by descending a relative path (the node
itself for the empty path). -/
def entryAtNode (e : FsNode) (q : Path) : Option FsNode :=
  match q with
  | [] => some e
  | _ =>
      match e with
      | .dir _ cs => lookupPath cs q
      | _ => none

-- ==================================================================
-- The module boundary (argument parsing glue and result records)

/-- The parsed module arguments (lines 110-130 of the source). -/
structure Params where
  src : String
  dest : Option String := none
  chdir : Option String := none
  owner : Option String := none
  group : Option String := none
  force : Bool := false
deriving Repr, DecidableEq

/-- The opaque collaborators of one invocation: tilde expansion, the
metadata `os.mkdir` gives a fresh directory, the outcome and output of the
rpm2cpio | cpio pipeline (the tree it writes on success, the partial tree
it leaves behind on failure), the pwd/grp identity databases, and which
paths raise `PermissionError` under `os.chown`. -/
structure Env where
  expanduser : String → String
  dirMeta : Meta
  unpackOk : Bool
  unpackOutput : String
  unpackTree : FsTree
  unpackPartial : FsTree
  pwdb : String → Option Int
  grdb : String → Option Int
  chownDeny : Path → Bool

/-- The `result` dict (lines 138-146): `changed` plus the echoed resolved
request fields. -/
structure ResultRecord where
  changed : Bool
  src : String
  dest : Option String
  chdir : Option String
  owner : Option String
  group : Option String
  force : Bool
deriving Repr, DecidableEq

/-- How one invocation terminates: `module.exit_json(**result)` (success),
`module.fail_json(msg=..., ...)` (failure, with the extra fields of the
call — `none` when only `msg` is passed), or an uncaught Python
exception. -/
inductive Outcome where
  | exitJson : ResultRecord → Outcome
  | failJson : String → Option ResultRecord → Outcome
  | raised : String → Outcome
deriving Repr, DecidableEq

-- ==================================================================
-- run_module (lines 108-231 of the source), staged to follow the code

/-- The expanded source path (line 125). -/
def expandedSrc (p : Params) (env : Env) : String :=
  env.expanduser p.src

/-- The destination name after defaulting (lines 132-133 and 150-153):
the expanded user-supplied name when truthy, otherwise
`os.path.basename(src[:-len(".rpm")])`. -/
def destStr (p : Params) (env : Env) : String :=
  match strOpt ((strOpt p.dest).map env.expanduser) with
  | some d => d
  | none => default_dest (expandedSrc p env)

/-- The `chdir` variable (lines 127 and 135-136): the expanded
user-supplied directory, or `None` when absent or empty. -/
def chdirStr (p : Params) (env : Env) : Option String :=
  (strOpt p.chdir).map env.expanduser

/-- The `result` dict as first populated (lines 138-146), with the
update of `result['dest']` at line 153 already applied: by exit time
`dest` always holds the defaulted name. -/
def initResult (p : Params) (env : Env) : ResultRecord :=
  { changed := false
    src := expandedSrc p env
    dest := some (destStr p env)
    chdir := chdirStr p env
    owner := p.owner
    group := p.group
    force := p.force }

/-- Lines 201-228: resolve uid (lines 202, 206-210): -1 unless `owner` is
truthy, in which case `pwd.getpwnam` must know it. -/
def resolveUid (env : Env) (owner : Option String) : Except String Int :=
  match strOpt owner with
  | some o =>
      match env.pwdb o with
      | some u => .ok u
      | none => .error ("owner \x27" ++ o ++ "\x27 not found in password database")
  | none => .ok (-1)

/-- Lines 203, 212-216: resolve gid symmetrically via `grp.getgrnam`. -/
def resolveGid (env : Env) (group : Option String) : Except String Int :=
  match strOpt group with
  | some g =>
      match env.grdb g with
      | some u => .ok u
      | none => .error ("group \x27" ++ g ++ "\x27 not found in group database")
  | none => .ok (-1)

/-- Lines 201-231: the identity resolution, the optional ownership walk
over `result_dir`, and the final `exit_json`.  `fail_json` at lines 210,
216 and 228 passes only `msg` (no `**result`). -/
def ownership_phase (env : Env) (cwd2 : Path) (fs3 : FsTree) (destP : Path)
    (resultDir : String) (p : Params) (res : ResultRecord) :
    Outcome × Path × FsTree :=
  match resolveUid env p.owner with
  | .error msg => (.failJson msg none, cwd2, fs3)
  | .ok uid =>
      match resolveGid env p.group with
      | .error msg => (.failJson msg none, cwd2, fs3)
      | .ok gid =>
          if (strOpt p.owner).isSome || (strOpt p.group).isSome then
            match lookupPath fs3 destP with
            | some (.dir m cs) =>
                if (walkRoot env.chownDeny uid gid destP m cs).2 then
                  (.exitJson { res with changed := true }, cwd2,
                    setAtPath fs3 destP (walkRoot env.chownDeny uid gid destP m cs).1)
                else
                  (.failJson ("failed to change permissions for path: " ++
                      resultDir ++ " [operation not permitted]") none, cwd2,
                    setAtPath fs3 destP (walkRoot env.chownDeny uid gid destP m cs).1)
            | _ =>
                -- os.walk of a non-existent root yields nothing
                (.exitJson { res with changed := true }, cwd2, fs3)
          else (.exitJson { res with changed := true }, cwd2, fs3)

/-- Lines 188-199: `os.mkdir(dest)` (raising `FileExistsError` when the
path already exists, `FileNotFoundError` when the parent chain is broken
or the name is empty), `os.chdir(dest)`, the extraction pipeline
(line 192-195) populating the new directory, and the `fail_json` of line
199 (whose message names `src` but not the captured `cmd_output`, and
which passes `**result`). -/
def mkdir_extract (env : Env) (cwd1 : Path) (fs1 : FsTree) (destP : Path)
    (src : String) (resultDir : String) (p : Params) (res : ResultRecord) :
    Outcome × Path × FsTree :=
  if destP = [] then (.raised "FileNotFoundError", cwd1, fs1)
  else if (lookupPath fs1 destP).isSome then (.raised "FileExistsError", cwd1, fs1)
  else if parentOk fs1 destP = false then (.raised "FileNotFoundError", cwd1, fs1)
  -- the directory is created, the process changes into it (`cwd` becomes
  -- `destP`), and the pipeline populates it with what it managed to write
  else if env.unpackOk then
    ownership_phase env destP
      (setAtPath (setAtPath fs1 destP (.dir env.dirMeta .nil)) destP
        (.dir env.dirMeta env.unpackTree)) destP resultDir p res
  else
    (.failJson ("failed to extract " ++ src ++ " RPM file") (some res), destP,
      setAtPath (setAtPath fs1 destP (.dir env.dirMeta .nil)) destP
        (.dir env.dirMeta env.unpackPartial))

/-- Lines 159-189: compute `result_dir`, run the check-mode prediction
(lines 171-180), or decide among no-op, fresh extraction and forced
re-extraction (lines 182-189). -/
def after_chdir (p : Params) (checkMode : Bool) (env : Env) (cwd1 : Path)
    (fs0 : FsTree) (res : ResultRecord) : Outcome × Path × FsTree :=
  if checkMode then
    (.exitJson { res with changed :=
        (if isDir fs0 (resolve cwd1 (destStr p env)) then
          (if p.force then true else false)
        else true) }, cwd1, fs0)
  else
    if isDir fs0 (resolve cwd1 (destStr p env)) then
      if p.force then
        mkdir_extract env cwd1 (rmtree fs0 (resolve cwd1 (destStr p env)))
          (resolve cwd1 (destStr p env)) (expandedSrc p env)
          (joinStr (pathStr cwd1) (destStr p env)) p res
      else (.exitJson res, cwd1, fs0)
    else
      mkdir_extract env cwd1 fs0 (resolve cwd1 (destStr p env)) (expandedSrc p env)
        (joinStr (pathStr cwd1) (destStr p env)) p res

/-- The whole of `run_module`: parameter expansion, destination
defaulting, the optional `os.chdir(chdir)` of lines 155-157 (raising if
the target is not a directory), then the reconciliation.  The result is
the terminal outcome, the final process working directory, and the final
filesystem. -/
def run_module (p : Params) (checkMode : Bool) (env : Env) (cwd0 : Path)
    (fs0 : FsTree) : Outcome × Path × FsTree :=
  match strOpt (chdirStr p env) with
  | some c =>
      if isDir fs0 (resolve cwd0 c) then
        after_chdir p checkMode env (resolve cwd0 c) fs0 (initResult p env)
      else (.raised "chdir failed", cwd0, fs0)
  | none => after_chdir p checkMode env cwd0 fs0 (initResult p env)

/-- The working directory in effect after the optional chdir. -/
def cwd1Of (p : Params) (env : Env) (cwd0 : Path) : Path :=
  match strOpt (chdirStr p env) with
  | some c => resolve cwd0 c
  | none => cwd0

/-- The absolute destination path a run works on. -/
def destPathOf (p : Params) (env : Env) (cwd0 : Path) : Path :=
  resolve (cwd1Of p env cwd0) (destStr p env)

/-- Whether the optional `os.chdir(chdir)` of lines 155-157 succeeds from
the given starting state (vacuously true when no chdir is requested). -/
def chdirOk (p : Params) (env : Env) (cwd0 : Path) (fs0 : FsTree) : Bool :=
  match strOpt (chdirStr p env) with
  | some c => isDir fs0 (resolve cwd0 c)
  | none => true

-- ==================================================================
-- Definition modelled from the spec (for the refinement claim about
-- destination defaulting)

/-- Modelled from the spec: "destination defaults to source filename with
a fixed trailing suffix (the conventional archive extension) removed —
exact-suffix match required; no suffix-agnostic fallback".  The base name
loses the trailing `.rpm` only when it exactly ends with it. -/
def default_dest_spec (src : String) : String :=
  if endsWithL (basename src).toList ".rpm".toList then
    String.mk ((basename src).toList.take
      ((basename src).toList.length - ".rpm".toList.length))
  else basename src

-- ==================================================================
-- Concrete requests, environments and states used by the witnesses and
-- counterexamples below

/-- An environment whose opaque collaborators are all trivial: identity
tilde expansion, successful extraction of an empty tree, empty identity
databases, no permission denials. -/
def envId : Env :=
  { expanduser := fun s => s
    dirMeta := ⟨0, 0⟩
    unpackOk := true
    unpackOutput := ""
    unpackTree := .nil
    unpackPartial := .nil
    pwdb := fun _ => none
    grdb := fun _ => none
    chownDeny := fun _ => false }

/-- Environment of a failing pipeline that leaves one partial file. -/
def envFail : Env :=
  { envId with
    unpackOk := false
    unpackOutput := "cpio: read error"
    unpackPartial := .cons "x" (.file ⟨0, 0⟩) .nil }

/-- Environment where user joe has uid 5 and the archive holds a symlink
to a directory plus a regular file. -/
def envJoe : Env :=
  { envId with
    pwdb := fun s => if s = "joe" then some 5 else none
    unpackTree := .cons "link" (.symlink ⟨0, 0⟩ true)
      (.cons "f" (.file ⟨0, 0⟩) .nil) }

/-- Environment where user joe has uid 5 and group staff gid 7, and the
archive holds a file with nonzero post-extraction ids. -/
def envIds : Env :=
  { envId with
    pwdb := fun s => if s = "joe" then some 5 else none
    grdb := fun s => if s = "staff" then some 7 else none
    unpackTree := .cons "f" (.file ⟨3, 4⟩)
      (.cons "sub" (.dir ⟨1, 2⟩ (.cons "g" (.file ⟨3, 4⟩) .nil)) .nil) }

/-- A working directory containing only an empty directory `tmp`. -/
def fsTmp : FsTree := .cons "tmp" (.dir ⟨0, 0⟩ .nil) .nil

/-- A state where the destination name `pkg` is an empty directory. -/
def fsPkgDir : FsTree := .cons "pkg" (.dir ⟨0, 0⟩ .nil) .nil

/-- A state where the destination name `data` is a regular file. -/
def fsDataFile : FsTree := .cons "data" (.file ⟨0, 0⟩) .nil

/-- A state where the destination name `data` is a symbolic link to a
directory. -/
def fsDataLink : FsTree := .cons "data" (.symlink ⟨0, 0⟩ true) .nil

/-- Is the first list an initial segment of the second? -/
def leadsWith : List Char → List Char → Bool
  | [], _ => true
  | _ :: _, [] => false
  | a :: n, b :: h => if a = b then leadsWith n h else false

/-- Does the first list occur contiguously inside the second? -/
def subListIn (n : List Char) : List Char → Bool
  | [] => leadsWith n []
  | h :: t => leadsWith n (h :: t) || subListIn n t

/-- Does `sub` occur as a contiguous substring of `s`?  (Used to state
that a message "includes" a piece of text.) -/
def strIncludes (s sub : String) : Bool := subListIn sub.toList s.toList

/-- The result record of a fresh successful extraction of `pkg.rpm`. -/
def resPkgChanged : ResultRecord :=
  { changed := true
    src := "pkg.rpm"
    dest := some "pkg"
    chdir := none
    owner := none
    group := none
    force := false }

-- ==================================================================
-- Basic lemmas about the filesystem model

theorem find_setEntry_self : ∀ (t : FsTree) (n : String) (node : FsNode),
    (t.setEntry n node).find n = some node
  | .nil, n, node => by simp [FsTree.setEntry, FsTree.find]
  | .cons m e t, n, node => by
      by_cases h : m = n
      · simp [FsTree.setEntry, FsTree.find, h]
      · simp [FsTree.setEntry, FsTree.find, h, find_setEntry_self t n node]

theorem find_setEntry_ne : ∀ (t : FsTree) (n m : String) (node : FsNode),
    n ≠ m → (t.setEntry n node).find m = t.find m
  | .nil, n, m, node, h => by simp [FsTree.setEntry, FsTree.find, h]
  | .cons k e t, n, m, node, h => by
      by_cases hk : k = n
      · subst hk; simp [FsTree.setEntry, FsTree.find, h]
      · simp only [FsTree.setEntry, if_neg hk, FsTree.find]
        by_cases hm : k = m
        · simp [hm]
        · simp [hm, find_setEntry_ne t n m node h]

theorem lookupPath_nil_path (t : FsTree) : lookupPath t [] = none := rfl

theorem lookupPath_single (t : FsTree) (n : String) :
    lookupPath t [n] = t.find n := rfl

theorem lookupPath_cons₂ (t : FsTree) (n x : String) (q : Path) :
    lookupPath t (n :: x :: q) =
      match t.find n with
      | some (.dir _ cs) => lookupPath cs (x :: q)
      | _ => none := rfl

theorem setAtPath_single (t : FsTree) (n : String) (node : FsNode) :
    setAtPath t [n] node = t.setEntry n node := rfl

theorem setAtPath_cons₂ (t : FsTree) (n x : String) (q : Path) (node : FsNode) :
    setAtPath t (n :: x :: q) node =
      match t.find n with
      | some (.dir m cs) => t.setEntry n (.dir m (setAtPath cs (x :: q) node))
      | _ => t := rfl

theorem parentOk_cons₂ (t : FsTree) (n x : String) (q : Path) :
    parentOk t (n :: x :: q) =
      match t.find n with
      | some (.dir _ cs) => parentOk cs (x :: q)
      | _ => false := rfl

/-- Resolution of a nonempty path only looks at the head entry. -/
theorem lookupPath_congr_find {t t' : FsTree} (n : String) (q : Path)
    (h : t.find n = t'.find n) :
    lookupPath t (n :: q) = lookupPath t' (n :: q) := by
  cases q with
  | nil => simpa [lookupPath_single] using h
  | cons x q => rw [lookupPath_cons₂, lookupPath_cons₂, h]

theorem isDir_of_lookup_dir {t : FsTree} {p : Path} {m : Meta} {cs : FsTree}
    (h : lookupPath t p = some (.dir m cs)) : isDir t p = true := by
  unfold isDir
  rw [h]
  rfl

theorem isDir_of_lookup_none {t : FsTree} {p : Path}
    (h : lookupPath t p = none) : isDir t p = false := by
  unfold isDir; rw [h]

/-- If the head entry is a directory, resolution of a longer path descends
into it. -/
theorem lookupPath_cons_dir {t : FsTree} {n : String} {m : Meta} {cs : FsTree}
    (h : t.find n = some (.dir m cs)) (x : String) (q : Path) :
    lookupPath t (n :: x :: q) = lookupPath cs (x :: q) := by
  rw [lookupPath_cons₂, h]

theorem isDir_cons_dir {t : FsTree} {n : String} {m : Meta} {cs : FsTree}
    (h : t.find n = some (.dir m cs)) (x : String) (q : Path) :
    isDir t (n :: x :: q) = isDir cs (x :: q) := by
  unfold isDir; rw [lookupPath_cons_dir h]

/-- Whether `p` is an initial segment of `q`. -/
def startsWithPath : Path → Path → Bool
  | [], _ => true
  | _ :: _, [] => false
  | a :: p, b :: q => if a = b then startsWithPath p q else false

/-- Writing a node at `p` keeps the parent chain of `p` intact. -/
theorem parentOk_setAtPath_self : ∀ (p : Path) (t : FsTree) (node : FsNode),
    parentOk t p = true → parentOk (setAtPath t p node) p = true
  | [], _, _, _ => rfl
  | [n], t, node, _ => rfl
  | n :: x :: q, t, node, h => by
      simp only [parentOk] at h
      rcases hf : t.find n with _ | e
      · rw [hf] at h; simp at h
      · cases e with
        | dir m cs =>
            rw [hf] at h
            have hset : setAtPath t (n :: x :: q) node =
                t.setEntry n (.dir m (setAtPath cs (x :: q) node)) := by
              simp only [setAtPath]; rw [hf]
            rw [hset]
            simp only [parentOk, find_setEntry_self]
            exact parentOk_setAtPath_self (x :: q) cs node h
        | file m => rw [hf] at h; simp at h
        | symlink m b => rw [hf] at h; simp at h

/-- Writing a node at a path whose parent chain resolves makes the node
retrievable there. -/
theorem lookupPath_setAtPath_self : ∀ (p : Path) (t : FsTree) (node : FsNode),
    parentOk t p = true → p ≠ [] →
    lookupPath (setAtPath t p node) p = some node
  | [], _, _, _, hne => absurd rfl hne
  | [n], t, node, _, _ => by
      simp only [setAtPath, lookupPath_single]
      exact find_setEntry_self t n node
  | n :: x :: q, t, node, h, _ => by
      simp only [parentOk] at h
      rcases hf : t.find n with _ | e
      · rw [hf] at h; simp at h
      · cases e with
        | dir m cs =>
            rw [hf] at h
            have hset : setAtPath t (n :: x :: q) node =
                t.setEntry n (.dir m (setAtPath cs (x :: q) node)) := by
              simp only [setAtPath]; rw [hf]
            rw [hset, lookupPath_cons_dir (find_setEntry_self t n _)]
            exact lookupPath_setAtPath_self (x :: q) cs node h (by simp)
        | file m => rw [hf] at h; simp at h
        | symlink m b => rw [hf] at h; simp at h

/-- Frame rule: writing at `p` does not change directory-ness at any `q`
that `p` is not an initial segment of. -/
theorem isDir_setAtPath_frame : ∀ (q p : Path) (t : FsTree) (node : FsNode),
    startsWithPath p q = false →
    isDir (setAtPath t p node) q = isDir t q
  | _, [], _, _, hsw => by simp [startsWithPath] at hsw
  | [], _ :: _, t, node, _ => by
      simp [isDir, lookupPath_nil_path]
  | b :: q', a :: p', t, node, hsw => by
      by_cases hab : a = b
      · subst hab
        simp only [startsWithPath, if_pos rfl] at hsw
        -- p' is not an initial segment of q'; in particular p' is nonempty
        cases p' with
        | nil => simp [startsWithPath] at hsw
        | cons y pb =>
            rcases hf : t.find a with _ | e
            · rw [setAtPath_cons₂, hf]
            · cases e with
              | dir m cs =>
                  rw [setAtPath_cons₂, hf]
                  cases q' with
                  | nil =>
                      unfold isDir
                      rw [lookupPath_single, lookupPath_single,
                        find_setEntry_self, hf]
                      rfl
                  | cons z qb =>
                      rw [isDir_cons_dir (find_setEntry_self t a _) z qb,
                        isDir_cons_dir hf z qb]
                      exact isDir_setAtPath_frame (z :: qb) (y :: pb) cs node hsw
              | file m => rw [setAtPath_cons₂, hf]
              | symlink m b2 => rw [setAtPath_cons₂, hf]
      · -- different head: the write never touches entry b
        cases p' with
        | nil =>
            rw [setAtPath_single]
            unfold isDir
            rw [lookupPath_congr_find b q' (find_setEntry_ne t a b node hab)]
        | cons y pb =>
            rcases hf : t.find a with _ | e
            · rw [setAtPath_cons₂, hf]
            · cases e with
              | dir m cs =>
                  rw [setAtPath_cons₂, hf]
                  unfold isDir
                  rw [lookupPath_congr_find b q' (find_setEntry_ne t a b _ hab)]
              | file m => rw [setAtPath_cons₂, hf]
              | symlink m b2 => rw [setAtPath_cons₂, hf]

/-- If `q` resolves to a directory then so does every nonempty initial
segment of `q`. -/
theorem isDir_of_startsWith : ∀ (p q : Path) (t : FsTree),
    startsWithPath p q = true → p ≠ [] → isDir t q = true → isDir t p = true
  | [], _, _, _, hne, _ => absurd rfl hne
  | _ :: _, [], _, hsw, _, _ => by simp [startsWithPath] at hsw
  | a :: p', b :: q', t, hsw, _, hdir => by
      by_cases hab : a = b
      · subst hab
        simp only [startsWithPath, if_pos rfl] at hsw
        cases p' with
        | nil =>
            -- p = [a]: q starts with a, and q resolving to a directory
            -- forces entry a to be a directory
            cases q' with
            | nil => exact hdir
            | cons z qb =>
                unfold isDir at hdir ⊢
                rw [lookupPath_single]
                rw [lookupPath_cons₂] at hdir
                rcases hf : t.find a with _ | e
                · rw [hf] at hdir; simp at hdir
                · cases e with
                  | dir m cs => rfl
                  | file m => rw [hf] at hdir; simp at hdir
                  | symlink m bb => rw [hf] at hdir; simp at hdir
        | cons y pb =>
            cases q' with
            | nil => simp [startsWithPath] at hsw
            | cons z qb =>
                unfold isDir at hdir
                rw [lookupPath_cons₂] at hdir
                rcases hf : t.find a with _ | e
                · rw [hf] at hdir; simp at hdir
                · cases e with
                  | dir m cs =>
                      rw [hf] at hdir
                      have := isDir_of_startsWith (y :: pb) (z :: qb) cs hsw
                        (by simp) (by unfold isDir; exact hdir)
                      rw [isDir_cons_dir hf y pb]
                      exact this
                  | file m => rw [hf] at hdir; simp at hdir
                  | symlink m bb => rw [hf] at hdir; simp at hdir
      · simp [startsWithPath, hab] at hsw

-- ==================================================================
-- Run inversion and dispatch lemmas

theorem walkRoot_shape (d : Path → Bool) (u g : Int) (pa : Path) (m : Meta)
    (cs : FsTree) : ∃ m2 cs2, (walkRoot d u g pa m cs).1 = .dir m2 cs2 := by
  unfold walkRoot
  by_cases hd : d pa
  · exact ⟨m, cs, by simp [hd]⟩
  · by_cases hf : (chownFilesPhase d u g pa cs).2
    · exact ⟨chownMeta u g m, (walkT d u g pa cs (chownFilesPhase d u g pa cs).1).1,
        by simp [hd, hf]⟩
    · exact ⟨chownMeta u g m, (chownFilesPhase d u g pa cs).1, by simp [hd, hf]⟩

theorem ownership_exit {env : Env} {cwd2 : Path} {fs3 : FsTree} {destP : Path}
    {rd : String} {p : Params} {res r : ResultRecord} {cwdE : Path} {fsE : FsTree}
    (h : ownership_phase env cwd2 fs3 destP rd p res = (.exitJson r, cwdE, fsE)) :
    r = { res with changed := true } ∧ cwdE = cwd2 ∧
      (fsE = fs3 ∨ ∃ m2 cs2, fsE = setAtPath fs3 destP (.dir m2 cs2)) := by
  unfold ownership_phase at h
  split at h
  · simp at h
  · split at h
    · simp at h
    · split at h
      · split at h
        · split at h
          · simp only [Prod.mk.injEq, Outcome.exitJson.injEq] at h
            obtain ⟨h1, h2, h3⟩ := h
            refine ⟨h1.symm, h2.symm, Or.inr ?_⟩
            obtain ⟨m2, cs2, hsh⟩ := walkRoot_shape env.chownDeny _ _ destP _ _
            rw [← h3, hsh]
            exact ⟨m2, cs2, rfl⟩
          · simp at h
        · simp only [Prod.mk.injEq, Outcome.exitJson.injEq] at h
          exact ⟨h.1.symm, h.2.1.symm, Or.inl h.2.2.symm⟩
      · simp only [Prod.mk.injEq, Outcome.exitJson.injEq] at h
        exact ⟨h.1.symm, h.2.1.symm, Or.inl h.2.2.symm⟩

theorem mkdir_extract_exit {env : Env} {cwd1 : Path} {fs1 : FsTree}
    {destP : Path} {src rd : String} {p : Params} {res r : ResultRecord}
    {cwdE : Path} {fsE : FsTree}
    (h : mkdir_extract env cwd1 fs1 destP src rd p res = (.exitJson r, cwdE, fsE)) :
    destP ≠ [] ∧ lookupPath fs1 destP = none ∧ parentOk fs1 destP = true ∧
      env.unpackOk = true ∧
      ownership_phase env destP
        (setAtPath (setAtPath fs1 destP (.dir env.dirMeta .nil)) destP
          (.dir env.dirMeta env.unpackTree)) destP rd p res =
        (.exitJson r, cwdE, fsE) := by
  unfold mkdir_extract at h
  split at h
  · simp at h
  · split at h
    · simp at h
    · split at h
      · simp at h
      · split at h
        · next hne hlk hpar hok =>
            refine ⟨hne, ?_, ?_, hok, h⟩
            · simpa using hlk
            · simpa using hpar
        · simp at h

theorem run_module_eq_after {p : Params} {env : Env} {cwd0 : Path}
    {fs0 : FsTree} (cm : Bool) (hch : chdirOk p env cwd0 fs0 = true) :
    run_module p cm env cwd0 fs0 =
      after_chdir p cm env (cwd1Of p env cwd0) fs0 (initResult p env) := by
  unfold run_module chdirOk cwd1Of at *
  split at hch
  · simp [hch]
  · rfl

theorem run_module_exit_chdirOk {p : Params} {cm : Bool} {env : Env}
    {cwd0 : Path} {fs0 : FsTree} {r : ResultRecord} {cwdE : Path} {fsE : FsTree}
    (h : run_module p cm env cwd0 fs0 = (.exitJson r, cwdE, fsE)) :
    chdirOk p env cwd0 fs0 = true := by
  unfold run_module at h
  unfold chdirOk
  split at h
  · split at h
    · next heq => simp only [heq]
    · simp at h
  · rfl

theorem after_chdir_check (p : Params) (env : Env) (cwd1 : Path)
    (fs0 : FsTree) (res : ResultRecord) :
    after_chdir p true env cwd1 fs0 res =
      (.exitJson { res with changed :=
          (if isDir fs0 (resolve cwd1 (destStr p env)) then
            (if p.force then true else false)
          else true) }, cwd1, fs0) := by
  unfold after_chdir
  simp

theorem after_chdir_real (p : Params) (env : Env) (cwd1 : Path)
    (fs0 : FsTree) (res : ResultRecord) :
    after_chdir p false env cwd1 fs0 res =
      (if isDir fs0 (resolve cwd1 (destStr p env)) then
        (if p.force then
          mkdir_extract env cwd1 (rmtree fs0 (resolve cwd1 (destStr p env)))
            (resolve cwd1 (destStr p env)) (expandedSrc p env)
            (joinStr (pathStr cwd1) (destStr p env)) p res
        else (.exitJson res, cwd1, fs0))
      else
        mkdir_extract env cwd1 fs0 (resolve cwd1 (destStr p env))
          (expandedSrc p env) (joinStr (pathStr cwd1) (destStr p env)) p res) := by
  unfold after_chdir
  simp

-- ==================================================================
-- Walk characterization lemmas

theorem chownFilesPhase_no_deny (u g : Int) (pa : Path) : ∀ (cs : FsTree),
    chownFilesPhase (fun _ => false) u g pa cs = (chownFilesAll u g cs, true)
  | .nil => rfl
  | .cons n e t => by
      cases e with
      | file m =>
          simp [chownFilesPhase, chownFilesAll, chownFilesPhase_no_deny u g pa t]
      | symlink m b =>
          cases b <;>
            simp [chownFilesPhase, chownFilesAll, chownFilesPhase_no_deny u g pa t]
      | dir m cs =>
          simp [chownFilesPhase, chownFilesAll, chownFilesPhase_no_deny u g pa t]

theorem walkT_no_deny (u g : Int) : ∀ (pa : Path) (t : FsTree),
    walkT (fun _ => false) u g pa t (chownFilesAll u g t) = (chownAllTree u g t, true)
  | _, .nil => rfl
  | pa, .cons n e t => by
      cases e with
      | file m =>
          simp [walkT, chownFilesAll, chownAllTree, walkT_no_deny u g pa t]
      | symlink m b =>
          cases b <;>
            simp [walkT, chownFilesAll, chownAllTree, walkT_no_deny u g pa t]
      | dir m cs =>
          simp [walkT, chownFilesAll, chownAllTree, chownAll,
            chownFilesPhase_no_deny u g (pa ++ [n]) cs,
            walkT_no_deny u g (pa ++ [n]) cs, walkT_no_deny u g pa t]

/-- A walk that is never denied chowns exactly per `chownAll` and
reports success. -/
theorem walkRoot_no_deny (u g : Int) (pa : Path) (m : Meta) (cs : FsTree) :
    walkRoot (fun _ => false) u g pa m cs =
      (.dir (chownMeta u g m) (chownAllTree u g cs), true) := by
  simp [walkRoot, chownFilesPhase_no_deny u g pa cs, walkT_no_deny u g pa cs]

theorem find_chownAllTree (u g : Int) : ∀ (t : FsTree) (n : String),
    (chownAllTree u g t).find n = (t.find n).map (chownAll u g)
  | .nil, n => rfl
  | .cons m e t, n => by
      by_cases h : m = n
      · subst h
        cases e <;> simp [chownAllTree, FsTree.find, chownAll]
      · cases e <;> simp [chownAllTree, FsTree.find, h, find_chownAllTree u g t n]

theorem lookupPath_chownAllTree (u g : Int) : ∀ (q : Path) (t : FsTree),
    lookupPath (chownAllTree u g t) q = (lookupPath t q).map (chownAll u g)
  | [], t => rfl
  | [n], t => by simp [lookupPath_single, find_chownAllTree]
  | n :: x :: q, t => by
      rw [lookupPath_cons₂, lookupPath_cons₂, find_chownAllTree]
      rcases hf : t.find n with _ | e
      · rfl
      · cases e with
        | dir m cs => simp [chownAll, lookupPath_chownAllTree u g (x :: q) cs]
        | file m => simp [chownAll]
        | symlink m b => cases b <;> simp [chownAll]

theorem entryAt_chownAll (u g : Int) (e : FsNode) (q : Path) :
    entryAtNode (chownAll u g e) q = (entryAtNode e q).map (chownAll u g) := by
  cases q with
  | nil => rfl
  | cons n q2 =>
      cases e with
      | dir m cs => simp [entryAtNode, chownAll, lookupPath_chownAllTree]
      | file m => simp [entryAtNode, chownAll]
      | symlink m b => cases b <;> simp [entryAtNode, chownAll]

theorem find_mapMetaTree (f : Meta → Meta) : ∀ (t : FsTree) (n : String),
    (mapMetaTree f t).find n = (t.find n).map (mapMetaNode f)
  | .nil, n => rfl
  | .cons m e t, n => by
      by_cases h : m = n
      · subst h
        cases e <;> simp [mapMetaTree, FsTree.find, mapMetaNode]
      · cases e <;> simp [mapMetaTree, FsTree.find, h, find_mapMetaTree f t n]

theorem lookupPath_mapMetaTree (f : Meta → Meta) : ∀ (q : Path) (t : FsTree),
    lookupPath (mapMetaTree f t) q = (lookupPath t q).map (mapMetaNode f)
  | [], t => rfl
  | [n], t => by simp [lookupPath_single, find_mapMetaTree]
  | n :: x :: q, t => by
      rw [lookupPath_cons₂, lookupPath_cons₂, find_mapMetaTree]
      rcases hf : t.find n with _ | e
      · rfl
      · cases e with
        | dir m cs => simp [mapMetaNode, lookupPath_mapMetaTree f (x :: q) cs]
        | file m => simp [mapMetaNode]
        | symlink m b => simp [mapMetaNode]

theorem entryAt_mapMeta (f : Meta → Meta) (e : FsNode) (q : Path) :
    entryAtNode (mapMetaNode f e) q = (entryAtNode e q).map (mapMetaNode f) := by
  cases q with
  | nil => rfl
  | cons n q2 =>
      cases e with
      | dir m cs => simp [entryAtNode, mapMetaNode, lookupPath_mapMetaTree]
      | file m => simp [entryAtNode, mapMetaNode]
      | symlink m b => simp [entryAtNode, mapMetaNode]

theorem chownFilesPhase_mapMeta (f : Meta → Meta) (u g : Int)
    (hf : ∀ m, f (chownMeta u g m) = f m) (d : Path → Bool) (pa : Path) :
    ∀ (cs : FsTree),
      mapMetaTree f (chownFilesPhase d u g pa cs).1 = mapMetaTree f cs
  | .nil => rfl
  | .cons n e t => by
      cases e with
      | file m =>
          by_cases hd : d (pa ++ [n])
          · simp [chownFilesPhase, hd]
          · simp [chownFilesPhase, hd, mapMetaTree, hf,
              chownFilesPhase_mapMeta f u g hf d pa t]
      | symlink m b =>
          cases b with
          | false =>
              by_cases hd : d (pa ++ [n])
              · simp [chownFilesPhase, hd]
              · simp [chownFilesPhase, hd, mapMetaTree, hf,
                  chownFilesPhase_mapMeta f u g hf d pa t]
          | true =>
              simp [chownFilesPhase, mapMetaTree,
                chownFilesPhase_mapMeta f u g hf d pa t]
      | dir m cs =>
          simp [chownFilesPhase, mapMetaTree,
            chownFilesPhase_mapMeta f u g hf d pa t]

theorem walkT_mapMeta (f : Meta → Meta) (u g : Int)
    (hf : ∀ m, f (chownMeta u g m) = f m) (d : Path → Bool) :
    ∀ (pa : Path) (t acc : FsTree),
      mapMetaTree f acc = mapMetaTree f t →
      mapMetaTree f (walkT d u g pa t acc).1 = mapMetaTree f t
  | _, .nil, acc, h => by simpa [walkT] using h
  | pa, .cons n e t, acc, h => by
      cases acc with
      | nil =>
          exfalso
          cases e <;> simp [mapMetaTree] at h
      | cons n2 e2 acc2 =>
          cases e with
          | dir m cs =>
              cases e2 with
              | file m2 => simp [mapMetaTree] at h
              | symlink m2 b2 => simp [mapMetaTree] at h
              | dir m2 cs2 =>
                  simp only [mapMetaTree, FsTree.cons.injEq, FsNode.dir.injEq] at h
                  obtain ⟨hn, -, ht⟩ := h
                  by_cases hd : d (pa ++ [n])
                  · simp [walkT, hd, mapMetaTree, hn, ht]
                  · by_cases hfp : (chownFilesPhase d u g (pa ++ [n]) cs).2
                    · by_cases hsd :
                        (walkT d u g (pa ++ [n]) cs
                          (chownFilesPhase d u g (pa ++ [n]) cs).1).2
                      · simp [walkT, hd, hfp, hsd, mapMetaTree, hn, hf, ht,
                          walkT_mapMeta f u g hf d (pa ++ [n]) cs _
                            (chownFilesPhase_mapMeta f u g hf d (pa ++ [n]) cs),
                          walkT_mapMeta f u g hf d pa t acc2 ht]
                      · simp [walkT, hd, hfp, hsd, mapMetaTree, hn, hf, ht,
                          walkT_mapMeta f u g hf d (pa ++ [n]) cs _
                            (chownFilesPhase_mapMeta f u g hf d (pa ++ [n]) cs)]
                    · simp [walkT, hd, hfp, mapMetaTree, hn, hf, ht,
                        chownFilesPhase_mapMeta f u g hf d (pa ++ [n]) cs]
          | file m =>
              cases e2 with
              | symlink m2 b2 => simp [mapMetaTree] at h
              | dir m2 cs2 => simp [mapMetaTree] at h
              | file m2 =>
                  simp only [mapMetaTree, FsTree.cons.injEq, FsNode.file.injEq] at h
                  obtain ⟨hn, hm, ht⟩ := h
                  simp [walkT, mapMetaTree, hn, hm,
                    walkT_mapMeta f u g hf d pa t acc2 ht]
          | symlink m b =>
              cases e2 with
              | file m2 => simp [mapMetaTree] at h
              | dir m2 cs2 => simp [mapMetaTree] at h
              | symlink m2 b2 =>
                  simp only [mapMetaTree, FsTree.cons.injEq,
                    FsNode.symlink.injEq] at h
                  obtain ⟨hn, ⟨hm, hb⟩, ht⟩ := h
                  simp [walkT, mapMetaTree, hn, hm, hb,
                    walkT_mapMeta f u g hf d pa t acc2 ht]

/-- The walk never changes what `f` observes of any metadata, provided the
chown itself does not (used with `f` projecting the gid when gid = -1,
and the uid when uid = -1). -/
theorem walkRoot_mapMeta (f : Meta → Meta) (u g : Int)
    (hf : ∀ m, f (chownMeta u g m) = f m) (d : Path → Bool) (pa : Path)
    (m : Meta) (cs : FsTree) :
    mapMetaNode f (walkRoot d u g pa m cs).1 = mapMetaNode f (.dir m cs) := by
  unfold walkRoot
  by_cases hd : d pa
  · simp [hd]
  · by_cases hfp : (chownFilesPhase d u g pa cs).2
    · simp [hd, hfp, mapMetaNode, hf,
        walkT_mapMeta f u g hf d pa cs _ (chownFilesPhase_mapMeta f u g hf d pa cs)]
    · simp [hd, hfp, mapMetaNode, hf, chownFilesPhase_mapMeta f u g hf d pa cs]

/-- The uid of the metadata of a node. -/
def nodeUid : FsNode → Int
  | .file m => m.uid
  | .symlink m _ => m.uid
  | .dir m _ => m.uid

/-- The gid of the metadata of a node. -/
def nodeGid : FsNode → Int
  | .file m => m.gid
  | .symlink m _ => m.gid
  | .dir m _ => m.gid

theorem entryAt_proj_eq {a b : FsNode} (f : Meta → Meta) (proj : FsNode → Int)
    (hproj : ∀ e, proj (mapMetaNode f e) = proj e)
    (h : mapMetaNode f a = mapMetaNode f b) (q : Path) :
    (entryAtNode a q).map proj = (entryAtNode b q).map proj := by
  have h2 := congrArg (fun x => entryAtNode x q) h
  simp only [entryAt_mapMeta] at h2
  cases ha : entryAtNode a q with
  | none =>
      cases hb : entryAtNode b q with
      | none => rfl
      | some eb => rw [ha, hb] at h2; simp at h2
  | some ea =>
      cases hb : entryAtNode b q with
      | none => rw [ha, hb] at h2; simp at h2
      | some eb =>
          rw [ha, hb] at h2
          simp at h2 ⊢
          rw [← hproj ea, ← hproj eb, h2]

-- ==================================================================
-- Auxiliary lemmas for the claims

theorem isDir_of_lookup_nondir {t : FsTree} {p : Path} {e : FsNode}
    (h : lookupPath t p = some e) (hnd : isdirNode e = false) :
    isDir t p = false := by
  unfold isDir
  rw [h]
  exact hnd

theorem destP_ne_nil_of_lookup {t : FsTree} {p : Path} {e : FsNode}
    (h : lookupPath t p = some e) : p ≠ [] := by
  intro hp
  rw [hp, lookupPath_nil_path] at h
  exact Option.noConfusion h

theorem takeWhile_append_of_all {α : Type} (p : α → Bool) :
    ∀ (xs ys : List α), (∀ a ∈ xs, p a = true) →
      List.takeWhile p (xs ++ ys) = xs ++ List.takeWhile p ys
  | [], ys, _ => rfl
  | x :: xs, ys, h => by
      have hx : p x = true := h x (by simp)
      simp only [List.cons_append, List.takeWhile_cons, hx, if_true]
      rw [takeWhile_append_of_all p xs ys (fun a ha => h a (by simp [ha]))]

theorem basenameL_append_noslash (t r : List Char)
    (h : ∀ c ∈ r, decide (c ≠ '/') = true) :
    basenameL (t ++ r) = basenameL t ++ r := by
  unfold basenameL
  rw [List.reverse_append]
  rw [takeWhile_append_of_all _ r.reverse t.reverse
    (fun a ha => h a (List.mem_reverse.mp ha))]
  rw [List.reverse_append, List.reverse_reverse]

theorem toList_mk (l : List Char) : (String.mk l).toList = l := rfl

/-- When the source really ends in `.rpm`, slicing four characters off and
taking the base name agrees with the spec rule (base name, then exact
suffix removal). -/
theorem default_dest_eq_spec_of_rpm (s : String)
    (h : endsWithL s.toList ".rpm".toList = true) :
    default_dest s = default_dest_spec s := by
  unfold endsWithL at h
  rw [decide_eq_true_eq] at h
  have hchars : ∀ c ∈ ".rpm".toList, decide (c ≠ '/') = true := by decide
  have hsplit : s.toList.take (s.toList.length - ".rpm".toList.length) ++
      ".rpm".toList = s.toList := by
    conv_rhs => rw [← List.take_append_drop
      (s.toList.length - ".rpm".toList.length) s.toList]
    rw [h]
  have hb : basenameL s.toList =
      basenameL (s.toList.take (s.toList.length - ".rpm".toList.length)) ++
        ".rpm".toList := by
    conv_lhs => rw [← hsplit]
    rw [basenameL_append_noslash _ _ hchars]
  have hend : endsWithL
      (basenameL (s.toList.take (s.toList.length - ".rpm".toList.length)) ++
        ".rpm".toList) ".rpm".toList = true := by
    unfold endsWithL
    rw [decide_eq_true_eq, List.length_append, Nat.add_sub_cancel,
      List.drop_left]
  unfold default_dest default_dest_spec basename
  simp only [toList_mk, hb]
  rw [if_pos hend]
  rw [List.length_append, Nat.add_sub_cancel, List.take_left]

-- ==================================================================
-- Claims

/-- C9: on a real (non-check) run where the destination already exists as
a directory and force is false, the module exits successfully with
`changed = false` and an unchanged filesystem, whatever the identity
databases contain — identity resolution is never reached (the theorem
quantifies over every environment, including ones whose databases
resolve nothing). -/
theorem noop_skips_identity_resolution (p : Params) (env : Env) (cwd0 : Path)
    (fs0 : FsTree)
    (hch : chdirOk p env cwd0 fs0 = true)
    (hpres : isDir fs0 (destPathOf p env cwd0) = true)
    (hforce : p.force = false) :
    run_module p false env cwd0 fs0 =
      (.exitJson (initResult p env), cwd1Of p env cwd0, fs0) ∧
      (initResult p env).changed = false := by
  constructor
  · rw [run_module_eq_after false hch]
    unfold after_chdir
    unfold destPathOf at hpres
    simp [hpres, hforce]
  · rfl

/-- Witness for C9: owner `ghost` is resolvable in no database, yet the
no-op run succeeds with `changed = false`. -/
theorem noop_skips_identity_resolution_witness :
    run_module { src := "pkg.rpm", owner := some "ghost" } false envId [] fsPkgDir =
      (.exitJson (initResult { src := "pkg.rpm", owner := some "ghost" } envId),
        cwd1Of { src := "pkg.rpm", owner := some "ghost" } envId [], fsPkgDir) ∧
      (initResult { src := "pkg.rpm", owner := some "ghost" } envId).changed = false :=
  noop_skips_identity_resolution { src := "pkg.rpm", owner := some "ghost" }
    envId [] fsPkgDir (by rfl) (by rfl) (by rfl)

/-- C10: in check mode with a working directory supplied, the process
working directory is changed to that directory before the prediction is
made (the prediction resolves the destination against it) and is not
restored, while the filesystem is left untouched. -/
theorem check_mode_chdir_effect (p : Params) (env : Env) (cwd0 : Path)
    (fs0 : FsTree) (c : String)
    (hc : strOpt (chdirStr p env) = some c)
    (ht : isDir fs0 (resolve cwd0 c) = true) :
    run_module p true env cwd0 fs0 =
      (.exitJson { initResult p env with changed :=
          (if isDir fs0 (resolve (resolve cwd0 c) (destStr p env)) then
            (if p.force then true else false)
          else true) },
        resolve cwd0 c, fs0) := by
  unfold run_module
  rw [hc]
  simp only [ht, if_true]
  unfold after_chdir
  simp

/-- Witness for C10: with `chdir = /tmp` the check-mode run ends with the
working directory inside `/tmp` and the filesystem unchanged. -/
theorem check_mode_chdir_effect_witness :
    run_module { src := "pkg.rpm", chdir := some "/tmp" } true envId [] fsTmp =
      (.exitJson { initResult { src := "pkg.rpm", chdir := some "/tmp" } envId with
          changed :=
          (if isDir fsTmp (resolve (resolve [] "/tmp")
              (destStr { src := "pkg.rpm", chdir := some "/tmp" } envId)) then
            (if ({ src := "pkg.rpm", chdir := some "/tmp" } : Params).force then true
              else false)
          else true) },
        resolve [] "/tmp", fsTmp) :=
  check_mode_chdir_effect { src := "pkg.rpm", chdir := some "/tmp" } envId [] fsTmp
    "/tmp" (by rfl) (by rfl)

/-- C6 counterexample: with the destination existing as a regular file and
force=false the claim predicts a successful no-op with `changed = false`,
but the run raises an uncaught `FileExistsError` (and does so with
force=true as well, where the claim predicts delete-and-re-extract). -/
theorem nondir_dest_counterexample :
    isdirNode (.file ⟨0, 0⟩) = false ∧
    lookupPath fsDataFile (destPathOf { src := "data.rpm" } envId []) =
      some (.file ⟨0, 0⟩) ∧
    run_module { src := "data.rpm" } false envId [] fsDataFile =
      (.raised "FileExistsError", [], fsDataFile) ∧
    run_module { src := "data.rpm", force := true } false envId [] fsDataFile =
      (.raised "FileExistsError", [], fsDataFile) :=
  ⟨rfl, rfl, rfl, rfl⟩

/-- C6 (amended): a destination that exists but on which `os.path.isdir`
is false — a regular file, or a symbolic link whose target is not a
directory — is treated as absent, not as present: check mode predicts
`changed = true`, and a real run (either force value) proceeds to
`os.mkdir`, which raises an uncaught `FileExistsError`, with no distinct
diagnosis.  A symbolic link whose target IS a directory is instead
treated as present, since `os.path.isdir` follows symlinks: with
force=false the run exits successfully with `changed = false` and an
unchanged filesystem. -/
theorem nondir_dest_amended (p : Params) (env : Env) (cwd0 : Path)
    (fs0 : FsTree) (e : FsNode)
    (hch : chdirOk p env cwd0 fs0 = true)
    (hnode : lookupPath fs0 (destPathOf p env cwd0) = some e) :
    (isdirNode e = false →
      run_module p true env cwd0 fs0 =
        (.exitJson { initResult p env with changed := true },
          cwd1Of p env cwd0, fs0) ∧
      run_module p false env cwd0 fs0 =
        (.raised "FileExistsError", cwd1Of p env cwd0, fs0)) ∧
    (isdirNode e = true → p.force = false →
      run_module p false env cwd0 fs0 =
        (.exitJson (initResult p env), cwd1Of p env cwd0, fs0)) := by
  have hne : destPathOf p env cwd0 ≠ [] := destP_ne_nil_of_lookup hnode
  constructor
  · intro hnd
    have hid : isDir fs0 (destPathOf p env cwd0) = false :=
      isDir_of_lookup_nondir hnode hnd
    unfold destPathOf at hid hnode hne
    constructor
    · rw [run_module_eq_after true hch]
      unfold after_chdir
      simp [hid]
    · rw [run_module_eq_after false hch]
      unfold after_chdir
      simp only [hid, Bool.false_eq_true, if_false]
      unfold mkdir_extract
      rw [if_neg hne]
      simp [hnode]
  · intro hd hforce
    have hid : isDir fs0 (destPathOf p env cwd0) = true := by
      unfold isDir
      rw [hnode]
      exact hd
    unfold destPathOf at hid
    rw [run_module_eq_after false hch, after_chdir_real]
    simp [hid, hforce]

/-- Witness for the amended C6: a plain file at the destination raises an
uncaught error, while a symlink to a directory at the destination is a
successful no-op. -/
theorem nondir_dest_amended_witness :
    run_module { src := "data.rpm" } false envId [] fsDataFile =
      (.raised "FileExistsError", cwd1Of { src := "data.rpm" } envId [], fsDataFile) ∧
    run_module { src := "data.rpm" } false envId [] fsDataLink =
      (.exitJson (initResult { src := "data.rpm" } envId),
        cwd1Of { src := "data.rpm" } envId [], fsDataLink) :=
  ⟨((nondir_dest_amended { src := "data.rpm" } envId [] fsDataFile (.file ⟨0, 0⟩)
      (by rfl) (by rfl)).1 (by rfl)).2,
    (nondir_dest_amended { src := "data.rpm" } envId [] fsDataLink
      (.symlink ⟨0, 0⟩ true) (by rfl) (by rfl)).2 (by rfl) (by rfl)⟩

/-- C3 counterexample: for source `foo.tar` the code slices four characters
off regardless of the suffix and computes destination `foo`, while the
exact-suffix rule of the claim leaves `foo.tar` untouched. -/
theorem suffix_exact_match_counterexample :
    (run_module { src := "foo.tar" } true envId [] .nil).1 =
      .exitJson
        { changed := true
          src := "foo.tar"
          dest := some "foo"
          chdir := none
          owner := none
          group := none
          force := false } ∧
    default_dest "foo.tar" = "foo" ∧
    default_dest_spec "foo.tar" = "foo.tar" ∧
    ("foo" : String) ≠ "foo.tar" :=
  ⟨rfl, rfl, rfl, by decide⟩

/-- C3 (amended): with no destination supplied the destination is
`basename(src[:-4])` — the last four characters are removed whether or not
they are `.rpm`.  When the source does end in `.rpm` this coincides with
the exact-suffix removal of the claim, and for `dir/foo-1.0.rpm` it computes
`foo-1.0`. -/
theorem default_dest_amended (p : Params) (env : Env) (cwd0 : Path)
    (fs0 : FsTree)
    (hdest : p.dest = none)
    (hch : chdirOk p env cwd0 fs0 = true) :
    (∃ r cwdE, run_module p true env cwd0 fs0 = (.exitJson r, cwdE, fs0) ∧
        r.dest = some (default_dest (expandedSrc p env))) ∧
    (endsWithL (expandedSrc p env).toList ".rpm".toList = true →
        default_dest (expandedSrc p env) = default_dest_spec (expandedSrc p env)) ∧
    default_dest "dir/foo-1.0.rpm" = "foo-1.0" := by
  refine ⟨?_, fun h => default_dest_eq_spec_of_rpm _ h, rfl⟩
  rw [run_module_eq_after true hch]
  unfold after_chdir
  simp only [if_pos rfl]
  refine ⟨_, _, rfl, ?_⟩
  show (initResult p env).dest = _
  unfold initResult destStr
  rw [hdest]
  rfl

/-- Witness for the amended C3. -/
theorem default_dest_amended_witness :
    (∃ r cwdE, run_module { src := "a/b-1.0.rpm" } true envId [] .nil =
        (.exitJson r, cwdE, .nil) ∧
        r.dest = some (default_dest (expandedSrc { src := "a/b-1.0.rpm" } envId))) ∧
    (endsWithL (expandedSrc { src := "a/b-1.0.rpm" } envId).toList
        ".rpm".toList = true →
        default_dest (expandedSrc { src := "a/b-1.0.rpm" } envId) =
          default_dest_spec (expandedSrc { src := "a/b-1.0.rpm" } envId)) ∧
    default_dest "dir/foo-1.0.rpm" = "foo-1.0" :=
  default_dest_amended { src := "a/b-1.0.rpm" } envId [] .nil rfl rfl

/-- C1: dry-run fidelity — whenever both the check-mode run and the real
run from the same starting state exit successfully, they report the same
`changed` value, and that value is true iff the destination is absent or
force is set. -/
theorem dry_run_fidelity (p : Params) (env : Env) (cwd0 : Path) (fs0 : FsTree)
    (rd rr : ResultRecord) (cwdD cwdR : Path) (fsD fsR : FsTree)
    (hdry : run_module p true env cwd0 fs0 = (.exitJson rd, cwdD, fsD))
    (hreal : run_module p false env cwd0 fs0 = (.exitJson rr, cwdR, fsR)) :
    rd.changed = rr.changed ∧
      rd.changed = (if isDir fs0 (destPathOf p env cwd0) then p.force else true) := by
  have hch := run_module_exit_chdirOk hdry
  rw [run_module_eq_after true hch, after_chdir_check] at hdry
  rw [run_module_eq_after false hch, after_chdir_real] at hreal
  simp only [Prod.mk.injEq, Outcome.exitJson.injEq] at hdry
  have hrdc : rd.changed =
      (if isDir fs0 (resolve (cwd1Of p env cwd0) (destStr p env)) then
        (if p.force then true else false)
      else true) := by
    rw [← hdry.1]
  unfold destPathOf
  by_cases hid : isDir fs0 (resolve (cwd1Of p env cwd0) (destStr p env))
  · by_cases hf : p.force
    · rw [if_pos hid, if_pos hf] at hreal
      obtain ⟨-, -, -, -, hown⟩ := mkdir_extract_exit hreal
      obtain ⟨hr, -, -⟩ := ownership_exit hown
      have hrr : rr.changed = true := by rw [hr]
      rw [hrdc, hrr]
      simp [hid, hf]
    · rw [if_pos hid, if_neg hf] at hreal
      simp only [Prod.mk.injEq, Outcome.exitJson.injEq] at hreal
      have hrr : rr.changed = false := by rw [← hreal.1]; rfl
      rw [hrdc, hrr]
      simp [hid, hf]
  · rw [if_neg hid] at hreal
    obtain ⟨-, -, -, -, hown⟩ := mkdir_extract_exit hreal
    obtain ⟨hr, -, -⟩ := ownership_exit hown
    have hrr : rr.changed = true := by rw [hr]
    rw [hrdc, hrr]
    simp [hid]

/-- Witness for C1: a fresh extraction whose check-mode and real runs both
succeed and agree on `changed = true`. -/
theorem dry_run_fidelity_witness :
    resPkgChanged.changed = resPkgChanged.changed ∧
    resPkgChanged.changed =
      (if isDir .nil (destPathOf { src := "pkg.rpm" } envId []) then
        ({ src := "pkg.rpm" } : Params).force
      else true) :=
  dry_run_fidelity { src := "pkg.rpm" } envId [] .nil resPkgChanged resPkgChanged
    [] ["pkg"] .nil fsPkgDir (by rfl) (by rfl)

/-- C4 counterexample: the pipeline fails and its captured combined output
is "cpio: read error", yet the failure message is the fixed text naming
only the source; the diagnostic text is not included in it.  The
partially populated destination is left on disk. -/
theorem unpack_failure_counterexample :
    run_module { src := "pkg.rpm" } false envFail [] .nil =
      (.failJson "failed to extract pkg.rpm RPM file"
          (some (initResult { src := "pkg.rpm" } envFail)),
        ["pkg"],
        .cons "pkg" (.dir ⟨0, 0⟩ (.cons "x" (.file ⟨0, 0⟩) .nil)) .nil) ∧
    envFail.unpackOutput = "cpio: read error" ∧
    strIncludes "failed to extract pkg.rpm RPM file" "cpio: read error" = false :=
  ⟨rfl, rfl, rfl⟩

/-- C4 (amended): when the unpack pipeline exits non-zero the run aborts
fatally with the fixed message `failed to extract <src> RPM file` (the
captured diagnostic output is read but not included in the message); the
destination directory is left on disk exactly as the pipeline left it,
and no ownership normalization is attempted — the final tree carries the
metadata written by the pipeline untouched, whatever owner/group were requested. -/
theorem unpack_failure_amended (p : Params) (env : Env) (cwd0 : Path)
    (fs0 : FsTree)
    (hch : chdirOk p env cwd0 fs0 = true)
    (hne : destPathOf p env cwd0 ≠ [])
    (habs : lookupPath fs0 (destPathOf p env cwd0) = none)
    (hpar : parentOk fs0 (destPathOf p env cwd0) = true)
    (hfail : env.unpackOk = false) :
    run_module p false env cwd0 fs0 =
      (.failJson ("failed to extract " ++ expandedSrc p env ++ " RPM file")
          (some (initResult p env)),
        destPathOf p env cwd0,
        setAtPath (setAtPath fs0 (destPathOf p env cwd0) (.dir env.dirMeta .nil))
          (destPathOf p env cwd0) (.dir env.dirMeta env.unpackPartial)) := by
  have hid : isDir fs0 (destPathOf p env cwd0) = false := isDir_of_lookup_none habs
  rw [run_module_eq_after false hch, after_chdir_real]
  unfold destPathOf at hne habs hpar hid ⊢
  simp only [hid, Bool.false_eq_true, if_false]
  unfold mkdir_extract
  rw [if_neg hne]
  simp [habs, hpar, hfail]

/-- Witness for the amended C4. -/
theorem unpack_failure_amended_witness :
    run_module { src := "pkg.rpm" } false envFail [] .nil =
      (.failJson ("failed to extract " ++ expandedSrc { src := "pkg.rpm" } envFail ++
            " RPM file")
          (some (initResult { src := "pkg.rpm" } envFail)),
        destPathOf { src := "pkg.rpm" } envFail [],
        setAtPath (setAtPath .nil (destPathOf { src := "pkg.rpm" } envFail [])
            (.dir envFail.dirMeta .nil))
          (destPathOf { src := "pkg.rpm" } envFail [])
          (.dir envFail.dirMeta envFail.unpackPartial)) :=
  unpack_failure_amended { src := "pkg.rpm" } envFail [] .nil (by rfl) (by decide)
    (by rfl) (by rfl) (by rfl)

/-- C5 counterexample: the owner-not-found fatal failure calls `fail_json`
with only `msg` — the failure record does not carry the echoed request
fields, unlike the success record (and unlike the unpack-failure record). -/
theorem identity_failure_fields_counterexample :
    (run_module { src := "pkg.rpm", owner := some "nobody7" } false envId [] .nil).1 =
      .failJson "owner \x27nobody7\x27 not found in password database" none :=
  rfl

/-- C5 (amended): only the unpack-pipeline failure record echoes the
resolved request fields (its `fail_json` call splats `**result`); the
owner-not-found, group-not-found and permission failures produce a record
carrying only the human-readable message, with no echoed fields. -/
theorem failure_fields_amended (p : Params) (env : Env) (cwd0 : Path)
    (fs0 : FsTree)
    (hch : chdirOk p env cwd0 fs0 = true)
    (hne : destPathOf p env cwd0 ≠ [])
    (habs : lookupPath fs0 (destPathOf p env cwd0) = none)
    (hpar : parentOk fs0 (destPathOf p env cwd0) = true) :
    (env.unpackOk = false →
      (run_module p false env cwd0 fs0).1 =
        .failJson ("failed to extract " ++ expandedSrc p env ++ " RPM file")
          (some (initResult p env))) ∧
    (∀ o, env.unpackOk = true → strOpt p.owner = some o → env.pwdb o = none →
      (run_module p false env cwd0 fs0).1 =
        .failJson ("owner \x27" ++ o ++ "\x27 not found in password database")
          none) ∧
    (∀ g uid, env.unpackOk = true → resolveUid env p.owner = .ok uid →
      strOpt p.group = some g → env.grdb g = none →
      (run_module p false env cwd0 fs0).1 =
        .failJson ("group \x27" ++ g ++ "\x27 not found in group database")
          none) ∧
    (∀ uid gid, env.unpackOk = true → resolveUid env p.owner = .ok uid →
      resolveGid env p.group = .ok gid →
      ((strOpt p.owner).isSome || (strOpt p.group).isSome) = true →
      (walkRoot env.chownDeny uid gid (destPathOf p env cwd0) env.dirMeta
          env.unpackTree).2 = false →
      (run_module p false env cwd0 fs0).1 =
        .failJson ("failed to change permissions for path: " ++
            joinStr (pathStr (cwd1Of p env cwd0)) (destStr p env) ++
            " [operation not permitted]") none) := by
  have hid : isDir fs0 (destPathOf p env cwd0) = false := isDir_of_lookup_none habs
  have hstep : run_module p false env cwd0 fs0 =
      mkdir_extract env (cwd1Of p env cwd0) fs0 (destPathOf p env cwd0)
        (expandedSrc p env)
        (joinStr (pathStr (cwd1Of p env cwd0)) (destStr p env)) p
        (initResult p env) := by
    rw [run_module_eq_after false hch, after_chdir_real]
    unfold destPathOf at hid
    simp [hid]
    rfl
  have hfs3 : lookupPath
      (setAtPath (setAtPath fs0 (destPathOf p env cwd0) (.dir env.dirMeta .nil))
        (destPathOf p env cwd0) (.dir env.dirMeta env.unpackTree))
      (destPathOf p env cwd0) = some (.dir env.dirMeta env.unpackTree) :=
    lookupPath_setAtPath_self _ _ _
      (parentOk_setAtPath_self _ fs0 _ hpar) hne
  refine ⟨?_, ?_, ?_, ?_⟩
  · intro hfail
    rw [hstep]
    unfold mkdir_extract
    rw [if_neg hne]
    simp [habs, hpar, hfail]
  · intro o hok ho hpw
    rw [hstep]
    unfold mkdir_extract
    rw [if_neg hne]
    simp only [habs, hpar, hok, Option.isSome_none, Bool.false_eq_true, if_false]
    unfold ownership_phase resolveUid
    rw [ho]
    simp [hpw]
  · intro g uid hok hu hg hgr
    rw [hstep]
    unfold mkdir_extract
    rw [if_neg hne]
    simp only [habs, hpar, hok, Option.isSome_none, Bool.false_eq_true, if_false]
    unfold ownership_phase
    rw [hu]
    unfold resolveGid
    rw [hg]
    simp [hgr]
  · intro uid gid hok hu hg hcond hwalk
    rw [hstep]
    unfold mkdir_extract
    rw [if_neg hne]
    simp only [habs, hpar, hok, Option.isSome_none, Bool.false_eq_true, if_false]
    unfold ownership_phase
    rw [hu, hg]
    simp [hcond, hfs3, hwalk]

/-- Witness for the amended C5 (the owner-not-found conjunct). -/
theorem failure_fields_amended_witness :
    (run_module { src := "pkg.rpm", owner := some "nobody7" } false envId [] .nil).1 =
      .failJson ("owner \x27" ++ "nobody7" ++
          "\x27 not found in password database") none :=
  (failure_fields_amended { src := "pkg.rpm", owner := some "nobody7" } envId [] .nil
      (by rfl) (by decide) (by rfl) (by rfl)).2.1 "nobody7" rfl rfl rfl

/-- C7 counterexample: a run with owner joe (uid 5) over an archive
holding a symlink-to-directory completes successfully, chowns the
destination directory and the regular file to uid 5, but leaves the
symlink-to-directory entry at its original uid 0 — contradicting the
claim that every symbolic link encountered as an entry (including one
whose target is a directory) has its own ownership changed. -/
theorem symlink_dir_not_chowned_counterexample :
    run_module { src := "pkg.rpm", owner := some "joe" } false envJoe [] .nil =
      (.exitJson
          { changed := true
            src := "pkg.rpm"
            dest := some "pkg"
            chdir := none
            owner := some "joe"
            group := none
            force := false },
        ["pkg"],
        .cons "pkg"
          (.dir ⟨5, 0⟩
            (.cons "link" (.symlink ⟨0, 0⟩ true)
              (.cons "f" (.file ⟨5, 0⟩) .nil))) .nil) ∧
    envJoe.pwdb "joe" = some 5 ∧
    (0 : Int) ≠ 5 :=
  ⟨rfl, rfl, by decide⟩

/-- C7 (amended): with no permission denials the ownership walk completes
and transforms the destination tree exactly by `chownAll`: the root, every
directory, every regular file and every symlink whose target is not a
directory receive the resolved ids (the own metadata of the entry, links not
followed); a symlink whose target is a directory is skipped entirely —
neither chowned nor descended into. -/
theorem ownership_walk_amended (uid gid : Int) (pa : Path) (m : Meta)
    (cs : FsTree) :
    (walkRoot (fun _ => false) uid gid pa m cs).2 = true ∧
    (∀ q, entryAtNode (walkRoot (fun _ => false) uid gid pa m cs).1 q =
      (entryAtNode (.dir m cs) q).map (chownAll uid gid)) ∧
    (∀ q m2, entryAtNode (.dir m cs) q = some (.symlink m2 true) →
      entryAtNode (walkRoot (fun _ => false) uid gid pa m cs).1 q =
        some (.symlink m2 true)) := by
  have hw := walkRoot_no_deny uid gid pa m cs
  have hmain : ∀ q, entryAtNode (walkRoot (fun _ => false) uid gid pa m cs).1 q =
      (entryAtNode (.dir m cs) q).map (chownAll uid gid) := by
    intro q
    rw [hw]
    show entryAtNode (chownAll uid gid (.dir m cs)) q = _
    rw [entryAt_chownAll]
  refine ⟨by rw [hw], hmain, ?_⟩
  intro q m2 hq
  rw [hmain q, hq]
  rfl

/-- Witness for the amended C7: the symlink-to-directory entry is
untouched by a completed walk. -/
theorem ownership_walk_amended_witness :
    entryAtNode (walkRoot (fun _ => false) 5 (-1) ["pkg"] ⟨0, 0⟩
        (.cons "link" (.symlink ⟨0, 0⟩ true) (.cons "f" (.file ⟨0, 0⟩) .nil))).1
      ["link"] = some (.symlink ⟨0, 0⟩ true) :=
  (ownership_walk_amended 5 (-1) ["pkg"] ⟨0, 0⟩
      (.cons "link" (.symlink ⟨0, 0⟩ true) (.cons "f" (.file ⟨0, 0⟩) .nil))).2.2
    ["link"] ⟨0, 0⟩ rfl

theorem mkdir_extract_sentinel {env : Env} {cwd1 : Path} {fs1 : FsTree}
    {destP : Path} {src rd : String} {p : Params} {res r : ResultRecord}
    {cwdE : Path} {fsE : FsTree}
    (hrun : mkdir_extract env cwd1 fs1 destP src rd p res = (.exitJson r, cwdE, fsE)) :
    (strOpt p.group = none →
      ∃ node, lookupPath fsE destP = some node ∧
        ∀ q, (entryAtNode node q).map nodeGid =
          (entryAtNode (.dir env.dirMeta env.unpackTree) q).map nodeGid) ∧
    (strOpt p.owner = none →
      ∃ node, lookupPath fsE destP = some node ∧
        ∀ q, (entryAtNode node q).map nodeUid =
          (entryAtNode (.dir env.dirMeta env.unpackTree) q).map nodeUid) := by
  obtain ⟨hne, hlk, hpar, hok, hown⟩ := mkdir_extract_exit hrun
  have hpar2 := parentOk_setAtPath_self destP fs1 (.dir env.dirMeta .nil) hpar
  have hpar3 := parentOk_setAtPath_self destP _ (.dir env.dirMeta env.unpackTree) hpar2
  have hfs3 : lookupPath
      (setAtPath (setAtPath fs1 destP (.dir env.dirMeta .nil)) destP
        (.dir env.dirMeta env.unpackTree)) destP =
      some (.dir env.dirMeta env.unpackTree) :=
    lookupPath_setAtPath_self destP _ _ hpar2 hne
  unfold ownership_phase at hown
  rcases hu : resolveUid env p.owner with msg | uid
  · rw [hu] at hown; simp at hown
  · rw [hu] at hown
    rcases hg : resolveGid env p.group with msg | gid
    · rw [hg] at hown; simp at hown
    · rw [hg] at hown
      dsimp only at hown
      by_cases hcond : ((strOpt p.owner).isSome || (strOpt p.group).isSome) = true
      · rw [if_pos hcond, hfs3] at hown
        dsimp only at hown
        by_cases hwk : (walkRoot env.chownDeny uid gid destP env.dirMeta
            env.unpackTree).2 = true
        · rw [if_pos hwk] at hown
          simp only [Prod.mk.injEq, Outcome.exitJson.injEq] at hown
          obtain ⟨hr, hcw, hfs⟩ := hown
          have hlkE : lookupPath fsE destP =
              some (walkRoot env.chownDeny uid gid destP env.dirMeta
                env.unpackTree).1 := by
            rw [← hfs]
            exact lookupPath_setAtPath_self destP _ _ hpar3 hne
          constructor
          · intro hgn
            have hgid : gid = -1 := by
              unfold resolveGid at hg
              rw [hgn] at hg
              injection hg with h2
              exact h2.symm
            subst hgid
            refine ⟨_, hlkE, fun q =>
              entryAt_proj_eq (fun mm => ⟨0, mm.gid⟩) nodeGid
                (fun e => by cases e <;> rfl)
                (walkRoot_mapMeta (fun mm => ⟨0, mm.gid⟩) uid (-1)
                  (fun mm => by simp [chownMeta]) env.chownDeny destP
                  env.dirMeta env.unpackTree) q⟩
          · intro hon
            have huid : uid = -1 := by
              unfold resolveUid at hu
              rw [hon] at hu
              injection hu with h2
              exact h2.symm
            subst huid
            refine ⟨_, hlkE, fun q =>
              entryAt_proj_eq (fun mm => ⟨mm.uid, 0⟩) nodeUid
                (fun e => by cases e <;> rfl)
                (walkRoot_mapMeta (fun mm => ⟨mm.uid, 0⟩) (-1) gid
                  (fun mm => by simp [chownMeta]) env.chownDeny destP
                  env.dirMeta env.unpackTree) q⟩
        · rw [if_neg hwk] at hown
          simp at hown
      · rw [if_neg hcond] at hown
        simp only [Prod.mk.injEq, Outcome.exitJson.injEq] at hown
        obtain ⟨hr, hcw, hfs⟩ := hown
        constructor
        · intro _hgn
          exact ⟨_, by rw [← hfs]; exact hfs3, fun q => rfl⟩
        · intro _hon
          exact ⟨_, by rw [← hfs]; exact hfs3, fun q => rfl⟩

/-- C8: on every successful real run that reports a change, leaving the
group unspecified leaves every entry of the destination tree (root
included) with the gid it had right after extraction, and symmetrically
leaving the owner unspecified preserves every uid — the -1 sentinel
passed to chown means "leave unchanged". -/
theorem sentinel_preserves_ids (p : Params) (env : Env) (cwd0 : Path)
    (fs0 : FsTree) (r : ResultRecord) (cwdE : Path) (fsE : FsTree)
    (hrun : run_module p false env cwd0 fs0 = (.exitJson r, cwdE, fsE))
    (hchg : r.changed = true) :
    (strOpt p.group = none →
      ∃ node, lookupPath fsE (destPathOf p env cwd0) = some node ∧
        ∀ q, (entryAtNode node q).map nodeGid =
          (entryAtNode (.dir env.dirMeta env.unpackTree) q).map nodeGid) ∧
    (strOpt p.owner = none →
      ∃ node, lookupPath fsE (destPathOf p env cwd0) = some node ∧
        ∀ q, (entryAtNode node q).map nodeUid =
          (entryAtNode (.dir env.dirMeta env.unpackTree) q).map nodeUid) := by
  have hch := run_module_exit_chdirOk hrun
  rw [run_module_eq_after false hch, after_chdir_real] at hrun
  unfold destPathOf
  by_cases hid : isDir fs0 (resolve (cwd1Of p env cwd0) (destStr p env))
  · by_cases hf : p.force
    · rw [if_pos hid, if_pos hf] at hrun
      exact mkdir_extract_sentinel hrun
    · rw [if_pos hid, if_neg hf] at hrun
      exfalso
      simp only [Prod.mk.injEq, Outcome.exitJson.injEq] at hrun
      rw [← hrun.1] at hchg
      simp [initResult] at hchg
  · rw [if_neg hid] at hrun
    exact mkdir_extract_sentinel hrun

/-- Witness for C8: owner joe only (no group), gids 4 and 2 of the
extracted tree survive the chown to uid 5. -/
theorem sentinel_preserves_ids_witness :
    ∃ node, lookupPath
        (.cons "pkg"
          (.dir ⟨5, 0⟩
            (.cons "f" (.file ⟨5, 4⟩)
              (.cons "sub" (.dir ⟨5, 2⟩ (.cons "g" (.file ⟨5, 4⟩) .nil)) .nil)))
          .nil)
        (destPathOf { src := "pkg.rpm", owner := some "joe" } envIds []) =
      some node ∧
      ∀ q, (entryAtNode node q).map nodeGid =
        (entryAtNode (.dir envIds.dirMeta envIds.unpackTree) q).map nodeGid :=
  (sentinel_preserves_ids { src := "pkg.rpm", owner := some "joe" } envIds [] .nil
      { changed := true
        src := "pkg.rpm"
        dest := some "pkg"
        chdir := none
        owner := some "joe"
        group := none
        force := false }
      ["pkg"]
      (.cons "pkg"
        (.dir ⟨5, 0⟩
          (.cons "f" (.file ⟨5, 4⟩)
            (.cons "sub" (.dir ⟨5, 2⟩ (.cons "g" (.file ⟨5, 4⟩) .nil)) .nil)))
        .nil)
      (by rfl) (by rfl)).1 (by rfl)

/-- C2: idempotence — from a state where the destination is absent, a
successful force=false run reports `changed = true`, and running the same
request again from the resulting state exits successfully with
`changed = false`, performing no filesystem mutation: the returned tree is
exactly the tree the first run left. -/
theorem idempotent_second_run (p : Params) (env : Env) (cwd0 : Path)
    (fs0 : FsTree) (r1 : ResultRecord) (cwd1E : Path) (fs1 : FsTree)
    (hforce : p.force = false)
    (habs : isDir fs0 (destPathOf p env cwd0) = false)
    (hrun1 : run_module p false env cwd0 fs0 = (.exitJson r1, cwd1E, fs1)) :
    r1.changed = true ∧
    run_module p false env cwd0 fs1 =
      (.exitJson (initResult p env), cwd1Of p env cwd0, fs1) ∧
    (initResult p env).changed = false := by
  have hch := run_module_exit_chdirOk hrun1
  rw [run_module_eq_after false hch, after_chdir_real] at hrun1
  unfold destPathOf at habs
  simp only [habs, Bool.false_eq_true, if_false] at hrun1
  obtain ⟨hne, hlk, hpar, hok, hown⟩ := mkdir_extract_exit hrun1
  obtain ⟨hr1, hcw, hfsor⟩ := ownership_exit hown
  have hr1c : r1.changed = true := by rw [hr1]
  have hpar2 := parentOk_setAtPath_self (resolve (cwd1Of p env cwd0) (destStr p env))
    fs0 (.dir env.dirMeta .nil) hpar
  have hpar3 := parentOk_setAtPath_self (resolve (cwd1Of p env cwd0) (destStr p env))
    _ (.dir env.dirMeta env.unpackTree) hpar2
  have hlk3 : lookupPath
      (setAtPath (setAtPath fs0 (resolve (cwd1Of p env cwd0) (destStr p env))
          (.dir env.dirMeta .nil))
        (resolve (cwd1Of p env cwd0) (destStr p env))
        (.dir env.dirMeta env.unpackTree))
      (resolve (cwd1Of p env cwd0) (destStr p env)) =
      some (.dir env.dirMeta env.unpackTree) :=
    lookupPath_setAtPath_self _ _ _ hpar2 hne
  have hisdir1 : isDir fs1 (resolve (cwd1Of p env cwd0) (destStr p env)) = true := by
    rcases hfsor with hfs | ⟨m2, cs2, hfs⟩
    · rw [hfs]
      exact isDir_of_lookup_dir hlk3
    · rw [hfs]
      exact isDir_of_lookup_dir (lookupPath_setAtPath_self _ _ _ hpar3 hne)
  have hch2 : chdirOk p env cwd0 fs1 = true := by
    unfold chdirOk at hch ⊢
    rcases hc : strOpt (chdirStr p env) with _ | c
    · rfl
    · rw [hc] at hch
      show isDir fs1 (resolve cwd0 c) = true
      by_cases hsw : startsWithPath (resolve (cwd1Of p env cwd0) (destStr p env))
          (resolve cwd0 c) = true
      · exfalso
        have hd0 := isDir_of_startsWith _ _ fs0 hsw hne hch
        rw [habs] at hd0
        exact Bool.noConfusion hd0
      · have hsw2 : startsWithPath (resolve (cwd1Of p env cwd0) (destStr p env))
            (resolve cwd0 c) = false := by
          revert hsw
          cases startsWithPath (resolve (cwd1Of p env cwd0) (destStr p env))
            (resolve cwd0 c) <;> simp
        have h2 : isDir (setAtPath fs0
            (resolve (cwd1Of p env cwd0) (destStr p env)) (.dir env.dirMeta .nil))
            (resolve cwd0 c) = true := by
          rw [isDir_setAtPath_frame _ _ fs0 _ hsw2]
          exact hch
        have h3 : isDir (setAtPath (setAtPath fs0
              (resolve (cwd1Of p env cwd0) (destStr p env)) (.dir env.dirMeta .nil))
            (resolve (cwd1Of p env cwd0) (destStr p env))
            (.dir env.dirMeta env.unpackTree)) (resolve cwd0 c) = true := by
          rw [isDir_setAtPath_frame _ _ _ _ hsw2]
          exact h2
        rcases hfsor with hfs | ⟨m2, cs2, hfs⟩
        · rw [hfs]
          exact h3
        · rw [hfs, isDir_setAtPath_frame _ _ _ _ hsw2]
          exact h3
  refine ⟨hr1c, ?_, rfl⟩
  rw [run_module_eq_after false hch2, after_chdir_real]
  simp [hisdir1, hforce]

/-- Witness for C2: extracting `pkg.rpm` twice — the second run returns
the tree of the first run untouched with `changed = false`. -/
theorem idempotent_second_run_witness :
    resPkgChanged.changed = true ∧
    run_module { src := "pkg.rpm" } false envId [] fsPkgDir =
      (.exitJson (initResult { src := "pkg.rpm" } envId),
        cwd1Of { src := "pkg.rpm" } envId [], fsPkgDir) ∧
    (initResult { src := "pkg.rpm" } envId).changed = false :=
  idempotent_second_run { src := "pkg.rpm" } envId [] .nil resPkgChanged ["pkg"]
    fsPkgDir (by rfl) (by rfl) (by rfl)

end RpmExtract
